import Mathlib

/-!
Shallow embedding of the two core components of the Radiological_Reporting_Agents
repository:

* the Segmenter — the section-assignment core of `extract_report_content` in
  `src/download_reports.py` (lines 72-126): it turns a list of text lines into a
  mapping from the four canonical section names to their reconstructed text;
* the Template Builder — `extract_templates` and `sanitize_filename` in
  `src/extract_templates.py`.

Strings are modelled as `List Char`.  The network fetch, HTML parsing, title/type
classification and file I/O are excluded glue (per the spec's scope); file loading
in the Template Builder is modelled by an explicit `LoadResult` argument mirroring
the `try/except` around `json.load`, and file writing by returning the
`(filename, template)` pairs that the source writes to disk.

Modelling notes, checked against the source:
* Python `str.strip`, `str.split()` and the regex class `\s` recognise Unicode
  whitespace; the inputs handled here are newline-split lines, so the embedding
  uses the ASCII whitespace characters.
* The header regex `^{section}\s*:\s*|^#{section}\s*$` is compiled with
  `re.IGNORECASE`; `lowerChar` models Python case folding on the characters that
  occur in this code base (ASCII letters plus a table of accented capitals).
* The boilerplate denylist regex
  `Rad Rap|Accueil|Comptes rendus|Blog|Contact|Nicolas Villard|\d{2}/\d{2}/\d{4}|Copier\s*directement\s*le\s*CR\s*dans\s*le\s*presse-papier|Copier\s*tout\s*le\s*CRCopier`
  is compiled WITHOUT `re.IGNORECASE` in both places it occurs; the embedding is
  accordingly case-sensitive.
-/

namespace RadReports

/-- Strings are modelled as lists of characters. -/
abbrev Str := List Char

/-- View a Lean string literal as the character-list representation. -/
def str (s : String) : Str := s.data

/-- ASCII whitespace: the characters of Python's `\s` / `str.strip()` that can
occur in the newline-split lines handled by the source. -/
def isSpc (c : Char) : Bool :=
  c = ' ' || c = '\t' || c = '\n' || c = '\r' || c = Char.ofNat 11 || c = Char.ofNat 12

/-- Python case folding (`str.lower`, `re.IGNORECASE`) restricted to the
characters occurring in this code base: ASCII letters and the accented capitals
of the French section/type names. -/
def lowerChar (c : Char) : Char :=
  if 'A' ≤ c && c ≤ 'Z' then Char.ofNat (c.toNat + 32)
  else if c = 'É' then 'é' else if c = 'È' then 'è' else if c = 'Ê' then 'ê'
  else if c = 'À' then 'à' else if c = 'Ç' then 'ç' else if c = 'Î' then 'î'
  else if c = 'Ô' then 'ô' else if c = 'Û' then 'û' else if c = 'Ù' then 'ù'
  else c

/-- `line.strip()` from the left only (helper). -/
def stripLeft (l : Str) : Str := l.dropWhile isSpc

/-- Python `str.strip()`: remove leading and trailing whitespace. -/
def strip (l : Str) : Str := List.rdropWhile isSpc (l.dropWhile isSpc)

/-- `len(s.split())`: number of maximal whitespace-free runs.  The Boolean flag
records whether the previous character was inside a word. -/
def wcAux : Bool → Str → Nat
  | _, [] => 0
  | inWord, c :: cs =>
    if isSpc c then wcAux false cs
    else (if inWord then 0 else 1) + wcAux true cs

/-- `len(s.split())`. -/
def wordCount (l : Str) : Nat := wcAux false l

/-- `" ".join(fragments)`. -/
def joinSp : List Str → Str
  | [] => []
  | [x] => x
  | x :: xs => x ++ ' ' :: joinSp xs

/-- Does the case-sensitive literal `p` occur at the start of `l`?  If so,
return the remainder. -/
def dropLit : Str → Str → Option Str
  | [], rest => some rest
  | _ :: _, [] => none
  | p :: ps, c :: cs => if c = p then dropLit ps cs else none

/-- Does the literal `p` occur, case-insensitively, at the start of `l`?  If so,
return the remainder.  Models a case-insensitive regex literal. -/
def dropCaseLit : Str → Str → Option Str
  | [], rest => some rest
  | _ :: _, [] => none
  | p :: ps, c :: cs => if lowerChar c = lowerChar p then dropCaseLit ps cs else none

/-- `f` holds at some suffix of the list: models an unanchored `re.search` whose
pattern is matched at each starting position. -/
def anyTail (f : Str → Bool) : Str → Bool
  | [] => f []
  | c :: cs => f (c :: cs) || anyTail f cs

/-- The case-sensitive literal `p` occurs somewhere in `l`. -/
def containsLit (p : Str) (l : Str) : Bool := anyTail (fun t => (dropLit p t).isSome) l

/-- ASCII digit, the regex class `\d` for the text handled here. -/
def isDig (c : Char) : Bool := '0' ≤ c && c ≤ '9'

/-- The regex `\d{2}/\d{2}/\d{4}` matches at the start of `t`: the first ten
characters are digit, digit, `/`, digit, digit, `/`, digit, digit, digit,
digit. -/
def dateAt (t : Str) : Bool :=
  decide (10 ≤ t.length) &&
  isDig (t.getD 0 ' ') && isDig (t.getD 1 ' ') && t.getD 2 ' ' == '/' &&
  isDig (t.getD 3 ' ') && isDig (t.getD 4 ' ') && t.getD 5 ' ' == '/' &&
  isDig (t.getD 6 ' ') && isDig (t.getD 7 ' ') && isDig (t.getD 8 ' ') &&
  isDig (t.getD 9 ' ')

/-- A date `\d{2}/\d{2}/\d{4}` occurs somewhere in `l`. -/
def containsDate (l : Str) : Bool := anyTail dateAt l

/-- The pattern `w₁\s*w₂\s*…\s*wₙ` (literal words separated by `\s*`) matches at
the start of `t`.  Each `wᵢ` of the source's patterns starts with a non-space
character, so the greedy `\s*` is exactly `dropWhile isSpc`. -/
def seqAt : List Str → Str → Bool
  | [], _ => true
  | w :: ws, t =>
    match dropLit w t with
    | some rest => seqAt ws (rest.dropWhile isSpc)
    | none => false

/-- The pattern `w₁\s*…\s*wₙ` occurs somewhere in `l`. -/
def containsSeq (ws : List Str) (l : Str) : Bool := anyTail (seqAt ws) l

/-- The source's boilerplate denylist regex (case-SENSITIVE: the two
`re.search` calls on it pass no flags):
`Rad Rap|Accueil|Comptes rendus|Blog|Contact|Nicolas Villard|\d{2}/\d{2}/\d{4}|Copier\s*directement\s*le\s*CR\s*dans\s*le\s*presse-papier|Copier\s*tout\s*le\s*CRCopier`. -/
def boilerplate (l : Str) : Bool :=
  containsLit (str "Rad Rap") l || containsLit (str "Accueil") l ||
  containsLit (str "Comptes rendus") l || containsLit (str "Blog") l ||
  containsLit (str "Contact") l || containsLit (str "Nicolas Villard") l ||
  containsDate l ||
  containsSeq [str "Copier", str "directement", str "le", str "CR",
    str "dans", str "le", str "presse-papier"] l ||
  containsSeq [str "Copier", str "tout", str "le", str "CRCopier"] l

/-- `section_order = ["Indication", "Technique", "Résultat", "Conclusion"]`. -/
def section_order : List Str :=
  [str "Indication", str "Technique", str "Résultat", str "Conclusion"]

/-- The alternative `^{section}\s*:\s*` of the header regex matches at the start
of `line` (case-insensitively); returns the remainder after the greedy match. -/
def matchColon (sec line : Str) : Option Str :=
  match dropCaseLit sec line with
  | none => none
  | some rest =>
    match rest.dropWhile isSpc with
    | ':' :: rest2 => some (rest2.dropWhile isSpc)
    | _ => none

/-- The alternative `^#{section}\s*$` of the header regex matches `line`. -/
def matchHash (sec line : Str) : Bool :=
  match line with
  | '#' :: rest =>
    match dropCaseLit sec rest with
    | some ws => ws.all isSpc
    | none => false
  | _ => false

/-- `re.search(rf"^{section}\s*:\s*|^#{section}\s*$", line, re.IGNORECASE)`. -/
def headerMatch (sec line : Str) : Bool :=
  (matchColon sec line).isSome || matchHash sec line

/-- The loop `for section in section_order: if re.search(header) ... break`:
first section of `section_order` whose header pattern matches the line. -/
def findHeader (line : Str) : Option Str :=
  section_order.find? (fun sec => headerMatch sec line)

/-- `re.sub(rf"^{sec}\s*:\s*|^#{sec}\s*$", "", line, flags=re.IGNORECASE).strip()`:
both alternatives are anchored at the string start, so at most one (leftmost,
first-alternative-preferred) replacement happens. -/
def stripHeader (sec line : Str) : Str :=
  match matchColon sec line with
  | some rest => strip rest
  | none => if matchHash sec line then [] else strip line

/-- Accumulators of `section_content = {section: [] for section in section_order}`:
a dictionary with exactly the four fixed keys, so modelled as a four-field
record holding the ordered fragment lists. -/
structure Acc where
  ind : List Str
  tec : List Str
  res : List Str
  con : List Str
deriving DecidableEq

/-- `section_content` at initialisation. -/
def emptyAcc : Acc := ⟨[], [], [], []⟩

/-- `section_content[sec].append(v)`.  In the source `sec` is always one of the
four keys of the dictionary (it is drawn from `section_order`). -/
def accApp (a : Acc) (sec : Str) (v : Str) : Acc :=
  if sec == str "Indication" then { a with ind := a.ind ++ [v] }
  else if sec == str "Technique" then { a with tec := a.tec ++ [v] }
  else if sec == str "Résultat" then { a with res := a.res ++ [v] }
  else if sec == str "Conclusion" then { a with con := a.con ++ [v] }
  else a

/-- `section_content[sec]`. -/
def accGet (a : Acc) (sec : Str) : List Str :=
  if sec == str "Indication" then a.ind
  else if sec == str "Technique" then a.tec
  else if sec == str "Résultat" then a.res
  else if sec == str "Conclusion" then a.con
  else []

/-- The scanning state of the line loop: `current_section` and the
accumulators. -/
structure SegState where
  current : Option Str
  acc : Acc
deriving DecidableEq

/-- The state at the start of the loop. -/
def initState : SegState := ⟨none, emptyAcc⟩

/-- One iteration of `for line in lines:` in `extract_report_content`. -/
def stepLine (st : SegState) (raw : Str) : SegState :=
  let line := strip raw
  if line = [] then st
  else
    match findHeader line with
    | some sec =>
      let residue := stripHeader sec line
      { current := some sec
        acc := if residue = [] then st.acc else accApp st.acc sec residue }
    | none =>
      match st.current with
      | some cur =>
        if boilerplate line then { st with current := none }
        else { st with acc := accApp st.acc cur line }
      | none => st

/-- The per-section post-processing:
`content = " ".join(section_content[section]).strip()` kept only
`if content and len(content.split()) > 2 and not re.search(denylist, content)`. -/
def finalVal (a : Acc) (sec : Str) : Str :=
  let content := strip (joinSp (accGet a sec))
  if content ≠ [] ∧ 2 < wordCount content ∧ boilerplate content = false then content
  else []

/-- `report_data["content"]` is initialised with the four section keys mapped to
empty strings. -/
def initContent : List (Str × Str) := section_order.map (fun sec => (sec, []))

/-- `report_data["content"][k] = v` on a dictionary whose keys are fixed. -/
def dSet (d : List (Str × Str)) (k v : Str) : List (Str × Str) :=
  d.map (fun p => if p.1 == k then (k, v) else p)

/-- Dictionary lookup in the produced content mapping (empty for a missing
key). -/
def cGet (d : List (Str × Str)) (k : Str) : Str :=
  match d.find? (fun p => p.1 == k) with
  | some p => p.2
  | none => []

/-- The Segmenter: the loop over the lines followed by the per-section
post-processing writing into `report_data["content"]`. -/
def segment (lines : List Str) : List (Str × Str) :=
  let st := lines.foldl stepLine initState
  section_order.foldl (fun d sec => dSet d sec (finalVal st.acc sec)) initContent

/-- The tail of `extract_report_content`: if no section has any content the
function returns `None`, otherwise the report (of which we model the `content`
mapping; `title`, `url` and `type` come from the excluded fetch layer). -/
def extract_report_content (lines : List Str) : Option (List (Str × Str)) :=
  let c := segment lines
  if c.all (fun p => p.2.isEmpty) then none else some c

/-! ## Template Builder (`src/extract_templates.py`) -/

/-- Folding of a character to ASCII, modelling
`unicodedata.normalize('NFKD', s).encode('ASCII', 'ignore').decode('ASCII')`
character by character: ASCII characters pass through, accented latin letters
occurring in this code base decompose to their base letter, and any other
non-ASCII character is dropped by the `'ignore'` encoding step.  (In the source
the result of this step is ASCII by construction; the theorems below rely only
on that.) -/
def asciiFoldChar (c : Char) : Str :=
  if c.toNat < 128 then [c]
  else if c = 'é' || c = 'è' || c = 'ê' || c = 'ë' then ['e']
  else if c = 'à' || c = 'â' || c = 'ä' then ['a']
  else if c = 'ç' then ['c']
  else if c = 'î' || c = 'ï' then ['i']
  else if c = 'ô' || c = 'ö' then ['o']
  else if c = 'û' || c = 'ü' || c = 'ù' then ['u']
  else if c = 'É' || c = 'È' || c = 'Ê' then ['E']
  else if c = 'À' || c = 'Â' then ['A']
  else if c = 'Ç' then ['C']
  else []

/-- The ASCII folding step of `sanitize_filename` on a whole string. -/
def asciiFold (s : Str) : Str := s.flatMap asciiFoldChar

/-- `valid_chars = "-_.() %s%s" % (string.ascii_letters, string.digits)` —
note that space and the two parentheses are valid. -/
def validChar (c : Char) : Bool :=
  c = '-' || c = '_' || c = '.' || c = '(' || c = ')' || c = ' ' ||
  ('a' ≤ c && c ≤ 'z') || ('A' ≤ c && c ≤ 'Z') || ('0' ≤ c && c ≤ '9')

/-- `sanitize_filename`: fold to ASCII, then replace every character outside
`valid_chars` with an underscore. -/
def sanitize_filename (s : Str) : Str :=
  (asciiFold s).map (fun c => if validChar c then c else '_')

/-- Python `str.lower()` on the characters occurring here. -/
def pyLower (s : Str) : Str := s.map lowerChar

/-- A raw report record as read from `training_reports.json`: only the `type`
and `content` fields are consulted by `extract_templates`, each of which may be
missing (`report.get`).  `content` is the report's section dictionary. -/
structure RawReport where
  type : Option Str
  content : Option (List (Str × Str))
deriving DecidableEq

/-- `report.get("type", "Unknown").strip()`. -/
def getType (r : RawReport) : Str :=
  match r.type with
  | some t => strip t
  | none => str "Unknown"

/-- `report.get("content", {})`. -/
def getContent (r : RawReport) : List (Str × Str) :=
  match r.content with
  | some c => c
  | none => []

/-- `report.get("content", {}).keys()`. -/
def contentKeys (r : RawReport) : List Str := (getContent r).map Prod.fst

/-- `report_types = defaultdict(list)` filling: append `r` to the group of key
`k`, creating the group at the end on first sight (Python dicts preserve
insertion order). -/
def addToGroup (gs : List (Str × List RawReport)) (k : Str) (r : RawReport) :
    List (Str × List RawReport) :=
  if gs.any (fun g => g.1 == k) then
    gs.map (fun g => if g.1 == k then (g.1, g.2 ++ [r]) else g)
  else gs ++ [(k, [r])]

/-- The grouping loop `for report in reports: report_types[type].append(report)`. -/
def groupTypes (reports : List RawReport) : List (Str × List RawReport) :=
  reports.foldl (fun gs r => addToGroup gs (getType r) r) []

/-- `section_counts[k] += 1` on `section_counts = defaultdict(int)`: a
dictionary with unique keys in insertion order. -/
def bumpKey : List (Str × Nat) → Str → List (Str × Nat)
  | [], k => [(k, 1)]
  | p :: ps, k => if p.1 == k then (p.1, p.2 + 1) :: ps else p :: bumpKey ps k

/-- The counting loop: for each report of the group, bump every key of its
content dictionary. -/
def sectionCounts (reps : List RawReport) : List (Str × Nat) :=
  reps.foldl (fun cs r => (contentKeys r).foldl bumpKey cs) []

/-- `critical_sections = ["Indication", "Technique", "Résultat", "Conclusion"]`. -/
def critical_sections : List Str :=
  [str "Indication", str "Technique", str "Résultat", str "Conclusion"]

/-- The loop appending each critical section not already present. -/
def forceCritical (common : List Str) : List Str :=
  critical_sections.foldl (fun acc s => if s ∈ acc then acc else acc ++ [s]) common

/-- `threshold = len(type_reports) * 0.3` and `count >= threshold`.  The source
computes the threshold in IEEE-double arithmetic; for the integer counts and
group sizes arising here that comparison coincides with the exact rational
comparison `10 * count ≥ 3 * len` used in this embedding. -/
def meetsThreshold (len count : Nat) : Bool := 3 * len ≤ 10 * count

/-- `common_sections` for one type group: the sections counted in at least 30%
of the group's reports, then the critical sections forced in. -/
def commonSections (reps : List RawReport) : List Str :=
  forceCritical
    (((sectionCounts reps).filter (fun p => meetsThreshold reps.length p.2)).map Prod.fst)

/-- A template record. -/
structure Template where
  type : Str
  title : Str
  sections : List (Str × Str)
deriving DecidableEq

/-- The template built for one type group: empty title, and every common
section mapped to the empty string. -/
def buildTemplate (ty : Str) (reps : List RawReport) : Template :=
  { type := ty, title := [], sections := (commonSections reps).map (fun s => (s, [])) }

/-- Outcome of `open(...)`/`json.load(...)` on `Knowledge/training_reports.json`,
mirroring the `try/except FileNotFoundError/json.JSONDecodeError` of the
source. -/
inductive LoadResult where
  | ok (reports : List RawReport)
  | fileNotFound
  | jsonDecodeError
deriving DecidableEq

/-- `os.path.join("templates", f"{sanitize_filename(ty.lower())}_template.json")`. -/
def templateFilename (ty : Str) : Str :=
  str "templates/" ++ sanitize_filename (pyLower ty) ++ str "_template.json"

/-- `extract_templates`: on a load failure return `[]`; otherwise group the
reports by type and emit one template per group.  Writing each template to disk
is modelled by returning the `(filename, template)` pair that the source dumps
(the source's return value is the filename list). -/
def extract_templates (load : LoadResult) : List (Str × Template) :=
  match load with
  | .fileNotFound => []
  | .jsonDecodeError => []
  | .ok reports =>
    (groupTypes reports).map (fun g => (templateFilename g.1, buildTemplate g.1 g.2))

/-! ## Auxiliary definitions used by the claim statements -/

/-- First entry of an insertion-ordered counts dictionary, `0` when absent. -/
def lookupCount : List (Str × Nat) → Str → Nat
  | [], _ => 0
  | p :: ps, s => if p.1 == s then p.2 else lookupCount ps s

/-- Number of reports of the group having `s` among the keys of their content
dictionary (what the source's `section_counts` actually counts per report). -/
def keyCount (s : Str) (reps : List RawReport) : Nat :=
  (reps.filter (fun r => decide (s ∈ contentKeys r))).length

/-- Modelled from the spec: "count how many reports have non-empty content for
each of the four canonical sections" — the number of reports of the group whose
content maps `s` to a non-empty string.  This follows the claim's words and is
compared against the source-derived `sectionCounts`. -/
def specNonEmptyCount (s : Str) (reps : List RawReport) : Nat :=
  (reps.filter (fun r =>
    match (getContent r).find? (fun p => p.1 == s) with
    | some p => !p.2.isEmpty
    | none => false)).length

/-- Modelled from the spec: the character set claim C3 allows in a sanitized
filename token — ASCII letters, digits, underscore, hyphen, period. -/
def claimFilenameChar (c : Char) : Bool :=
  ('a' ≤ c && c ≤ 'z') || ('A' ≤ c && c ≤ 'Z') || ('0' ≤ c && c ≤ '9') ||
  c = '_' || c = '-' || c = '.'

/-- One report of type MSK whose content has the key "Foo" mapped to the empty
string: `extract_templates` counts the key although no report has non-empty
content for it. -/
def c1CexReports : List RawReport :=
  [⟨some (str "MSK"), some [(str "Foo", [])]⟩]

/-- Ten reports of type MSK, seven of which have non-empty content for
"Résultat" (the concrete instance named by claim C1). -/
def c1Group : List RawReport :=
  List.replicate 7 ⟨some (str "MSK"), some [(str "Résultat", str "pas de lésion")]⟩ ++
  List.replicate 3 ⟨some (str "MSK"), some []⟩

/-- Four in-order header lines whose `Indication` text is a single non-empty
word: the final per-section filter of the Segmenter discards it. -/
def c2CexLines : List Str :=
  [str "Indication: pain", str "Technique: IRM du genou",
   str "Résultat: pas de lésion visible", str "Conclusion: examen dans les limites"]

/-- The mapping claim C2 predicts for `c2CexLines`. -/
def c2CexClaimed : List (Str × Str) :=
  [(str "Indication", str "pain"), (str "Technique", str "IRM du genou"),
   (str "Résultat", str "pas de lésion visible"),
   (str "Conclusion", str "examen dans les limites")]

/-! ## Helper lemmas: `strip` -/

theorem head_false_of_dropWhile_eq_self {p : Char → Bool} {c : Char} {cs : Str}
    (h : List.dropWhile p (c :: cs) = c :: cs) : p c = false := by
  cases hp : p c with
  | false => rfl
  | true =>
    rw [List.dropWhile_cons, hp] at h
    have hlen : (List.dropWhile p cs).length ≤ cs.length :=
      (List.dropWhile_suffix p).sublist.length_le
    have := congrArg List.length h
    simp at this
    omega

theorem strip_dropWhile_eq {T : Str} (h : strip T = T) : T.dropWhile isSpc = T := by
  have h1 : (strip T).length ≤ (T.dropWhile isSpc).length := by
    unfold strip
    exact ( List.rdropWhile_prefix isSpc (T.dropWhile isSpc)).sublist.length_le
  have h2 : (T.dropWhile isSpc).length ≤ T.length :=
    (List.dropWhile_suffix isSpc).sublist.length_le
  have h3 : (T.dropWhile isSpc).length = T.length := by
    rw [h] at h1; omega
  exact (List.dropWhile_suffix isSpc).sublist.eq_of_length h3

theorem strip_rdropWhile_eq {T : Str} (h : strip T = T) :
    List.rdropWhile isSpc T = T := by
  have hd := strip_dropWhile_eq h
  unfold strip at h
  rw [hd] at h
  exact h

theorem rdropWhile_append_self {p : Char → Bool} (l : Str) {T : Str}
    (hT : List.rdropWhile p T = T) (hne : T ≠ []) :
    List.rdropWhile p (l ++ T) = l ++ T := by
  unfold List.rdropWhile at hT ⊢
  have hrev : List.dropWhile p T.reverse = T.reverse := by
    have := congrArg List.reverse hT
    rwa [List.reverse_reverse] at this
  obtain ⟨d, ds, hds⟩ : ∃ d ds, T.reverse = d :: ds := by
    cases hr : T.reverse with
    | nil => exact absurd (by simpa using congrArg List.reverse hr) hne
    | cons d ds => exact ⟨d, ds, rfl⟩
  have hpd : p d = false := head_false_of_dropWhile_eq_self (hds ▸ hrev)
  rw [List.reverse_append, hds, List.cons_append, List.dropWhile_cons, hpd]
  simp [← List.cons_append, ← hds]

theorem strip_cons_append {c : Char} (hc : isSpc c = false) (m : Str) {T : Str}
    (hT : List.rdropWhile isSpc T = T) (hne : T ≠ []) :
    strip (c :: (m ++ T)) = c :: (m ++ T) := by
  unfold strip
  rw [List.dropWhile_cons, hc]
  show List.rdropWhile isSpc ((c :: m) ++ T) = c :: (m ++ T)
  rw [rdropWhile_append_self (c :: m) hT hne]
  simp

theorem strip_strip (l : Str) : strip (strip l) = strip l := by
  unfold strip
  set A := l.dropWhile isSpc with hA
  have hAA : List.dropWhile isSpc A = A := List.dropWhile_idempotent isSpc l
  have hmain : List.dropWhile isSpc (List.rdropWhile isSpc A) =
      List.rdropWhile isSpc A := by
    cases hR : List.rdropWhile isSpc A with
    | nil => rfl
    | cons d ds =>
      obtain ⟨rest, hrest⟩ := (hR ▸ List.rdropWhile_prefix isSpc A :
        (d :: ds) <+: A)
      have hx : List.dropWhile isSpc (d :: (ds ++ rest)) = d :: (ds ++ rest) := by
        rw [show d :: (ds ++ rest) = (d :: ds) ++ rest by rfl, hrest]
        exact hAA
      have hpd : isSpc d = false := head_false_of_dropWhile_eq_self hx
      simp [List.dropWhile_cons, hpd]
  rw [hmain, List.rdropWhile_idempotent]

/-! ## Helper lemmas: `stepLine` and `segment` -/

theorem stepLine_skip {st : SegState} {raw : Str} (h : st.current = none)
    (h2 : findHeader (strip raw) = none) : stepLine st raw = st := by
  simp only [stepLine]
  by_cases hs : strip raw = []
  · rw [if_pos hs]
  · rw [if_neg hs, h2, h]

theorem stepLine_content {st : SegState} {cur : Str} {raw : Str}
    (h : st.current = some cur) (h1 : strip raw ≠ [])
    (h2 : findHeader (strip raw) = none) (h3 : boilerplate (strip raw) = false) :
    stepLine st raw = { st with acc := accApp st.acc cur (strip raw) } := by
  simp only [stepLine]
  rw [if_neg h1, h2, h, h3]
  rfl

theorem stepLine_boiler {st : SegState} {cur : Str} {raw : Str}
    (h : st.current = some cur) (h1 : strip raw ≠ [])
    (h2 : findHeader (strip raw) = none) (h3 : boilerplate (strip raw) = true) :
    stepLine st raw = { st with current := none } := by
  simp only [stepLine]
  rw [if_neg h1, h2, h, h3]
  rfl

theorem stepLine_header {st : SegState} {sec raw : Str} (h1 : strip raw ≠ [])
    (h2 : findHeader (strip raw) = some sec) :
    stepLine st raw =
      { current := some sec
        acc := if stripHeader sec (strip raw) = [] then st.acc
               else accApp st.acc sec (stripHeader sec (strip raw)) } := by
  simp only [stepLine]
  rw [if_neg h1, h2]

/-- The content dictionary produced by `segment` always has exactly the four
entries, in canonical order, holding the per-section post-processed values. -/
theorem segment_entries (lines : List Str) :
    segment lines =
      [(str "Indication",
          finalVal (List.foldl stepLine initState lines).acc (str "Indication")),
       (str "Technique",
          finalVal (List.foldl stepLine initState lines).acc (str "Technique")),
       (str "Résultat",
          finalVal (List.foldl stepLine initState lines).acc (str "Résultat")),
       (str "Conclusion",
          finalVal (List.foldl stepLine initState lines).acc (str "Conclusion"))] := rfl

/-! ## Helper lemmas: membership in the forced common-section list -/

theorem mem_fold_append {cs : List Str} {base : List Str} {s : Str} :
    s ∈ cs.foldl (fun acc c => if c ∈ acc then acc else acc ++ [c]) base ↔
      s ∈ base ∨ s ∈ cs := by
  induction cs generalizing base with
  | nil => simp
  | cons c cs ih =>
    rw [List.foldl_cons, ih]
    by_cases h : c ∈ base
    · rw [if_pos h]
      constructor
      · rintro (hb | hc)
        · exact Or.inl hb
        · exact Or.inr (List.mem_cons_of_mem _ hc)
      · rintro (hb | hc)
        · exact Or.inl hb
        · rcases List.mem_cons.mp hc with rfl | hc2
          · exact Or.inl h
          · exact Or.inr hc2
    · rw [if_neg h]
      simp only [List.mem_append, List.mem_singleton, List.mem_cons]
      tauto

theorem mem_forceCritical {base : List Str} {s : Str} :
    s ∈ forceCritical base ↔ s ∈ base ∨ s ∈ critical_sections :=
  mem_fold_append

theorem template_keys (ty : Str) (reps : List RawReport) :
    (buildTemplate ty reps).sections.map Prod.fst = commonSections reps := by
  simp only [buildTemplate, List.map_map]
  exact List.map_id (commonSections reps)

/-! ## Claims C10, C8, C9, C3, C5 and the counterexamples of C1, C2, C4 -/

/-- Claim C10: when the training-reports file is missing or its contents cannot
be decoded as JSON, the Template Builder returns an empty list of template
artifacts.  (In the embedding, `extract_templates` is a total function: the
source catches `FileNotFoundError` and `json.JSONDecodeError` and returns `[]`,
raising nothing.) -/
theorem c10_load_failure :
    extract_templates LoadResult.fileNotFound = [] ∧
    extract_templates LoadResult.jsonDecodeError = [] :=
  ⟨rfl, rfl⟩

/-- Claim C8: for every type group the four canonical sections are always
present as keys of the produced template's sections mapping; the second
conjunct shows the forcing step inserts them into ANY candidate common-section
list, i.e. independently of the observed frequencies and of the threshold
comparison. -/
theorem c8_critical_always :
    ∀ (ty : Str) (reps : List RawReport) (common : List Str),
      (str "Indication" ∈ (buildTemplate ty reps).sections.map Prod.fst ∧
       str "Technique" ∈ (buildTemplate ty reps).sections.map Prod.fst ∧
       str "Résultat" ∈ (buildTemplate ty reps).sections.map Prod.fst ∧
       str "Conclusion" ∈ (buildTemplate ty reps).sections.map Prod.fst) ∧
      (str "Indication" ∈ forceCritical common ∧
       str "Technique" ∈ forceCritical common ∧
       str "Résultat" ∈ forceCritical common ∧
       str "Conclusion" ∈ forceCritical common) := by
  intro ty reps common
  rw [template_keys]
  refine ⟨⟨?_, ?_, ?_, ?_⟩, ?_, ?_, ?_, ?_⟩ <;>
    exact mem_forceCritical.mpr (Or.inr (by decide))

/-- Claim C9: every report produced by the Segmenter has a content mapping
whose keys are exactly the four canonical section names, in order, even when
some values are empty. -/
theorem c9_content_keys :
    ∀ (lines : List Str) (c : List (Str × Str)),
      extract_report_content lines = some c → c.map Prod.fst = section_order := by
  intro lines c h
  simp only [extract_report_content] at h
  by_cases hall : (segment lines).all (fun p => p.2.isEmpty) = true
  · rw [if_pos hall] at h
    exact absurd h (by simp)
  · rw [if_neg hall] at h
    have hc : c = segment lines := (Option.some_inj.mp h).symm
    rw [hc, segment_entries]
    rfl

/-- Witness for C9 at a concrete page. -/
theorem c9_witness :
    ([(str "Indication", str "un deux trois"), (str "Technique", []),
      (str "Résultat", []), (str "Conclusion", [])] : List (Str × Str)).map Prod.fst =
      section_order :=
  c9_content_keys [str "Indication: un deux trois"] _ (by decide)

/-- Counterexample to claim C3: the type string "Pelvis (féminin)" is lowered
and sanitized to "pelvis (feminin)", which contains a space and parentheses —
characters outside the claimed letters/digits/underscore/hyphen/period set —
and differs from the claimed "pelvis_feminin". -/
theorem c3_counterexample :
    sanitize_filename (pyLower (str "Pelvis (féminin)")) = str "pelvis (feminin)" ∧
    (sanitize_filename (pyLower (str "Pelvis (féminin)"))).all claimFilenameChar = false ∧
    sanitize_filename (pyLower (str "Pelvis (féminin)")) ≠ str "pelvis_feminin" := by
  decide

/-- Claim C3 as amended: every character of a sanitized filename token lies in
the source's `valid_chars` set (ASCII letters, digits, and `-_.()` plus the
space), and "Pelvis (féminin)" maps to "pelvis (feminin)". -/
theorem c3_sanitize_chars :
    (∀ s : Str, (sanitize_filename s).all validChar = true) ∧
    sanitize_filename (pyLower (str "Pelvis (féminin)")) = str "pelvis (feminin)" := by
  constructor
  · intro s
    unfold sanitize_filename
    rw [List.all_eq_true]
    intro c hc
    rw [List.mem_map] at hc
    obtain ⟨d, _, rfl⟩ := hc
    by_cases h : validChar d = true
    · rw [if_pos h]; exact h
    · rw [if_neg h]; decide
  · decide

/-- Counterexample to claim C5: denylist matching is case-sensitive — the
lower-case variant "accueil" of the denylist word "Accueil" does not match, and
the Segmenter treats the two differently both during accumulation and in the
final output. -/
theorem c5_counterexample :
    boilerplate (str "accueil") = false ∧
    boilerplate (str "Accueil") = true ∧
    cGet (segment [str "Indication: un deux trois", str "accueil"])
      (str "Indication") = str "un deux trois accueil" ∧
    cGet (segment [str "Indication: un deux trois", str "Accueil"])
      (str "Indication") = str "un deux trois" := by
  decide

/-- Claim C5 as amended: header matching is case-insensitive but denylist
matching is exact-case; with a section open, the line "accueil" is accumulated
while its case variant "Accueil" matches the denylist and resets the current
section. -/
theorem c5_denylist_case (st : SegState) (cur : Str) (h : st.current = some cur) :
    stepLine st (str "accueil") =
      { st with acc := accApp st.acc cur (str "accueil") } ∧
    stepLine st (str "Accueil") = { st with current := none } ∧
    boilerplate (str "accueil") = false ∧
    boilerplate (str "Accueil") = true := by
  refine ⟨?_, ?_, by decide, by decide⟩
  · have h1 : strip (str "accueil") ≠ [] := by decide
    have h2 : findHeader (strip (str "accueil")) = none := by decide
    have h3 : boilerplate (strip (str "accueil")) = false := by decide
    rw [stepLine_content h h1 h2 h3,
      show strip (str "accueil") = str "accueil" from by decide]
  · have h1 : strip (str "Accueil") ≠ [] := by decide
    have h2 : findHeader (strip (str "Accueil")) = none := by decide
    have h3 : boilerplate (strip (str "Accueil")) = true := by decide
    exact stepLine_boiler h h1 h2 h3

/-- Witness for C5 (amended) at a concrete state. -/
theorem c5_witness :
    stepLine ⟨some (str "Indication"), emptyAcc⟩ (str "accueil") =
      ⟨some (str "Indication"),
        accApp emptyAcc (str "Indication") (str "accueil")⟩ ∧
    stepLine ⟨some (str "Indication"), emptyAcc⟩ (str "Accueil") =
      ⟨none, emptyAcc⟩ ∧
    boilerplate (str "accueil") = false ∧
    boilerplate (str "Accueil") = true :=
  c5_denylist_case ⟨some (str "Indication"), emptyAcc⟩ (str "Indication") rfl

/-- Counterexample to claim C1: with one MSK report whose content maps "Foo" to
the empty string, "Foo" becomes a template key although zero reports have
non-empty content for it (so the claimed "count of non-empty ≥ threshold ×
group size" criterion, with any positive threshold, is violated); likewise
"Indication" is a template key with zero non-empty occurrences. -/
theorem c1_counterexample :
    str "Foo" ∈ (buildTemplate (str "MSK") c1CexReports).sections.map Prod.fst ∧
    specNonEmptyCount (str "Foo") c1CexReports = 0 ∧
    str "Indication" ∈ (buildTemplate (str "MSK") c1CexReports).sections.map Prod.fst ∧
    specNonEmptyCount (str "Indication") c1CexReports = 0 := by
  decide

/-- Counterexample to claim C2: with the non-empty text X = "pain" (a single
word), the Segmenter's final filter discards the Indication section, so the
returned mapping differs from the claimed one. -/
theorem c2_counterexample :
    segment c2CexLines ≠ c2CexClaimed ∧
    cGet (segment c2CexLines) (str "Indication") = [] ∧
    str "pain" ≠ [] := by
  decide

/-- Counterexample to claim C4: fed a report record missing both the `type`
and the `content` fields, the Template Builder does not fail: it silently
substitutes the defaults and produces a complete template for the "Unknown"
group. -/
theorem c4_counterexample :
    extract_templates (LoadResult.ok [⟨none, none⟩]) =
      [(str "templates/unknown_template.json",
        { type := str "Unknown", title := [],
          sections := [(str "Indication", []), (str "Technique", []),
            (str "Résultat", []), (str "Conclusion", [])] })] := by
  decide

/-! ## Helper lemmas: header lines `"Section: T"` -/

theorem stepLine_on_header {st : SegState} {sec T : Str}
    (hstrip : strip (sec ++ ':' :: ' ' :: T) = sec ++ ':' :: ' ' :: T)
    (hfind : findHeader (sec ++ ':' :: ' ' :: T) = some sec)
    (hresidue : stripHeader sec (sec ++ ':' :: ' ' :: T) = T)
    (hne : T ≠ []) :
    stepLine st (sec ++ ':' :: ' ' :: T) = ⟨some sec, accApp st.acc sec T⟩ := by
  have h1 : strip (sec ++ ':' :: ' ' :: T) ≠ [] := by
    rw [hstrip]; simp
  have h2 : findHeader (strip (sec ++ ':' :: ' ' :: T)) = some sec := by
    rw [hstrip]; exact hfind
  rw [stepLine_header h1 h2, hstrip, hresidue, if_neg hne]

theorem header_line_facts_ind {T : Str} (hT : strip T = T) (hne : T ≠ []) :
    strip (str "Indication" ++ ':' :: ' ' :: T) = str "Indication" ++ ':' :: ' ' :: T ∧
    findHeader (str "Indication" ++ ':' :: ' ' :: T) = some (str "Indication") ∧
    stripHeader (str "Indication") (str "Indication" ++ ':' :: ' ' :: T) = T := by
  refine ⟨?_, rfl, ?_⟩
  · show strip ('I' :: (str "ndication: " ++ T)) = 'I' :: (str "ndication: " ++ T)
    exact strip_cons_append (by decide) (str "ndication: ") (strip_rdropWhile_eq hT) hne
  · show strip (T.dropWhile isSpc) = T
    rw [strip_dropWhile_eq hT]; exact hT

theorem header_line_facts_tec {T : Str} (hT : strip T = T) (hne : T ≠ []) :
    strip (str "Technique" ++ ':' :: ' ' :: T) = str "Technique" ++ ':' :: ' ' :: T ∧
    findHeader (str "Technique" ++ ':' :: ' ' :: T) = some (str "Technique") ∧
    stripHeader (str "Technique") (str "Technique" ++ ':' :: ' ' :: T) = T := by
  refine ⟨?_, rfl, ?_⟩
  · show strip ('T' :: (str "echnique: " ++ T)) = 'T' :: (str "echnique: " ++ T)
    exact strip_cons_append (by decide) (str "echnique: ") (strip_rdropWhile_eq hT) hne
  · show strip (T.dropWhile isSpc) = T
    rw [strip_dropWhile_eq hT]; exact hT

theorem header_line_facts_res {T : Str} (hT : strip T = T) (hne : T ≠ []) :
    strip (str "Résultat" ++ ':' :: ' ' :: T) = str "Résultat" ++ ':' :: ' ' :: T ∧
    findHeader (str "Résultat" ++ ':' :: ' ' :: T) = some (str "Résultat") ∧
    stripHeader (str "Résultat") (str "Résultat" ++ ':' :: ' ' :: T) = T := by
  refine ⟨?_, rfl, ?_⟩
  · show strip ('R' :: (str "ésultat: " ++ T)) = 'R' :: (str "ésultat: " ++ T)
    exact strip_cons_append (by decide) (str "ésultat: ") (strip_rdropWhile_eq hT) hne
  · show strip (T.dropWhile isSpc) = T
    rw [strip_dropWhile_eq hT]; exact hT

theorem header_line_facts_con {T : Str} (hT : strip T = T) (hne : T ≠ []) :
    strip (str "Conclusion" ++ ':' :: ' ' :: T) = str "Conclusion" ++ ':' :: ' ' :: T ∧
    findHeader (str "Conclusion" ++ ':' :: ' ' :: T) = some (str "Conclusion") ∧
    stripHeader (str "Conclusion") (str "Conclusion" ++ ':' :: ' ' :: T) = T := by
  refine ⟨?_, rfl, ?_⟩
  · show strip ('C' :: (str "onclusion: " ++ T)) = 'C' :: (str "onclusion: " ++ T)
    exact strip_cons_append (by decide) (str "onclusion: ") (strip_rdropWhile_eq hT) hne
  · show strip (T.dropWhile isSpc) = T
    rw [strip_dropWhile_eq hT]; exact hT

theorem finalVal_single (a : Acc) (sec : Str) {T : Str} (hacc : accGet a sec = [T])
    (hT : strip T = T) (hne : T ≠ []) (hw : 2 < wordCount T)
    (hb : boilerplate T = false) : finalVal a sec = T := by
  simp only [finalVal]
  rw [hacc, show joinSp [T] = T from rfl, hT, if_pos ⟨hne, hw, hb⟩]

theorem finalVal_props (a : Acc) (sec : Str) (h : finalVal a sec ≠ []) :
    strip (finalVal a sec) = finalVal a sec ∧ 2 < wordCount (finalVal a sec) ∧
      boilerplate (finalVal a sec) = false := by
  simp only [finalVal] at h ⊢
  by_cases hp : strip (joinSp (accGet a sec)) ≠ [] ∧
      2 < wordCount (strip (joinSp (accGet a sec))) ∧
      boilerplate (strip (joinSp (accGet a sec))) = false
  · rw [if_pos hp]
    exact ⟨strip_strip _, hp.2.1, hp.2.2⟩
  · rw [if_neg hp] at h
    exact absurd rfl h

/-! ## Claims C2 (amended) and C6 -/

/-- Claim C2 as amended: for four in-order header lines "Indication: X",
"Technique: Y", "Résultat: Z", "Conclusion: W" whose texts are non-empty,
whitespace-trimmed, at least three words long, and do not match the boilerplate
denylist, the Segmenter returns exactly the claimed mapping. -/
theorem c2_segment_headers (X Y Z W : Str)
    (hX : strip X = X) (hXne : X ≠ []) (hXw : 2 < wordCount X)
    (hXb : boilerplate X = false)
    (hY : strip Y = Y) (hYne : Y ≠ []) (hYw : 2 < wordCount Y)
    (hYb : boilerplate Y = false)
    (hZ : strip Z = Z) (hZne : Z ≠ []) (hZw : 2 < wordCount Z)
    (hZb : boilerplate Z = false)
    (hW : strip W = W) (hWne : W ≠ []) (hWw : 2 < wordCount W)
    (hWb : boilerplate W = false) :
    segment [str "Indication: " ++ X, str "Technique: " ++ Y,
             str "Résultat: " ++ Z, str "Conclusion: " ++ W] =
      [(str "Indication", X), (str "Technique", Y),
       (str "Résultat", Z), (str "Conclusion", W)] := by
  obtain ⟨hs1, hf1, hr1⟩ := header_line_facts_ind hX hXne
  obtain ⟨hs2, hf2, hr2⟩ := header_line_facts_tec hY hYne
  obtain ⟨hs3, hf3, hr3⟩ := header_line_facts_res hZ hZne
  obtain ⟨hs4, hf4, hr4⟩ := header_line_facts_con hW hWne
  have hacc : (List.foldl stepLine initState
      [str "Indication" ++ ':' :: ' ' :: X, str "Technique" ++ ':' :: ' ' :: Y,
       str "Résultat" ++ ':' :: ' ' :: Z, str "Conclusion" ++ ':' :: ' ' :: W]).acc =
      ⟨[X], [Y], [Z], [W]⟩ := by
    rw [List.foldl_cons, stepLine_on_header hs1 hf1 hr1 hXne,
      List.foldl_cons, stepLine_on_header hs2 hf2 hr2 hYne,
      List.foldl_cons, stepLine_on_header hs3 hf3 hr3 hZne,
      List.foldl_cons, stepLine_on_header hs4 hf4 hr4 hWne, List.foldl_nil]
    rfl
  show segment [str "Indication" ++ ':' :: ' ' :: X, str "Technique" ++ ':' :: ' ' :: Y,
       str "Résultat" ++ ':' :: ' ' :: Z, str "Conclusion" ++ ':' :: ' ' :: W] = _
  rw [segment_entries, hacc,
    finalVal_single ⟨[X], [Y], [Z], [W]⟩ (str "Indication") rfl hX hXne hXw hXb,
    finalVal_single ⟨[X], [Y], [Z], [W]⟩ (str "Technique") rfl hY hYne hYw hYb,
    finalVal_single ⟨[X], [Y], [Z], [W]⟩ (str "Résultat") rfl hZ hZne hZw hZb,
    finalVal_single ⟨[X], [Y], [Z], [W]⟩ (str "Conclusion") rfl hW hWne hWw hWb]

/-- Witness for C2 (amended) at four concrete header lines. -/
theorem c2_witness :
    segment [str "Indication: " ++ str "gonalgie droite persistante",
             str "Technique: " ++ str "IRM du genou droit",
             str "Résultat: " ++ str "pas de lésion visible",
             str "Conclusion: " ++ str "examen dans les limites"] =
      [(str "Indication", str "gonalgie droite persistante"),
       (str "Technique", str "IRM du genou droit"),
       (str "Résultat", str "pas de lésion visible"),
       (str "Conclusion", str "examen dans les limites")] :=
  c2_segment_headers _ _ _ _
    (by decide) (by decide) (by decide) (by decide)
    (by decide) (by decide) (by decide) (by decide)
    (by decide) (by decide) (by decide) (by decide)
    (by decide) (by decide) (by decide) (by decide)

/-- Claim C6: the Segmenter is idempotent on its own output — for every section
name S and non-empty text T the Segmenter produced for S, re-running it on the
single line "S: T" yields T again for S. -/
theorem c6_idempotent (lines : List Str) (sec : Str) (hsec : sec ∈ section_order)
    (T : Str) (hT : T = cGet (segment lines) sec) (hne : T ≠ []) :
    cGet (segment [sec ++ ':' :: ' ' :: T]) sec = T := by
  have hsec4 : sec = str "Indication" ∨ sec = str "Technique" ∨
      sec = str "Résultat" ∨ sec = str "Conclusion" := by
    simpa [section_order] using hsec
  rcases hsec4 with rfl | rfl | rfl | rfl
  · have hTv : T =
        finalVal (List.foldl stepLine initState lines).acc (str "Indication") := hT
    have hprops := finalVal_props (List.foldl stepLine initState lines).acc
      (str "Indication") (by rw [← hTv]; exact hne)
    rw [← hTv] at hprops
    obtain ⟨hs, hw, hb⟩ := hprops
    obtain ⟨hstrip, hfind, hres⟩ := header_line_facts_ind hs hne
    have hacc : (List.foldl stepLine initState
        [str "Indication" ++ ':' :: ' ' :: T]).acc = ⟨[T], [], [], []⟩ := by
      rw [List.foldl_cons, stepLine_on_header hstrip hfind hres hne, List.foldl_nil]
      rfl
    rw [segment_entries, hacc]
    show finalVal (⟨[T], [], [], []⟩ : Acc) (str "Indication") = T
    exact finalVal_single ⟨[T], [], [], []⟩ (str "Indication") rfl hs hne hw hb
  · have hTv : T =
        finalVal (List.foldl stepLine initState lines).acc (str "Technique") := hT
    have hprops := finalVal_props (List.foldl stepLine initState lines).acc
      (str "Technique") (by rw [← hTv]; exact hne)
    rw [← hTv] at hprops
    obtain ⟨hs, hw, hb⟩ := hprops
    obtain ⟨hstrip, hfind, hres⟩ := header_line_facts_tec hs hne
    have hacc : (List.foldl stepLine initState
        [str "Technique" ++ ':' :: ' ' :: T]).acc = ⟨[], [T], [], []⟩ := by
      rw [List.foldl_cons, stepLine_on_header hstrip hfind hres hne, List.foldl_nil]
      rfl
    rw [segment_entries, hacc]
    show finalVal (⟨[], [T], [], []⟩ : Acc) (str "Technique") = T
    exact finalVal_single ⟨[], [T], [], []⟩ (str "Technique") rfl hs hne hw hb
  · have hTv : T =
        finalVal (List.foldl stepLine initState lines).acc (str "Résultat") := hT
    have hprops := finalVal_props (List.foldl stepLine initState lines).acc
      (str "Résultat") (by rw [← hTv]; exact hne)
    rw [← hTv] at hprops
    obtain ⟨hs, hw, hb⟩ := hprops
    obtain ⟨hstrip, hfind, hres⟩ := header_line_facts_res hs hne
    have hacc : (List.foldl stepLine initState
        [str "Résultat" ++ ':' :: ' ' :: T]).acc = ⟨[], [], [T], []⟩ := by
      rw [List.foldl_cons, stepLine_on_header hstrip hfind hres hne, List.foldl_nil]
      rfl
    rw [segment_entries, hacc]
    show finalVal (⟨[], [], [T], []⟩ : Acc) (str "Résultat") = T
    exact finalVal_single ⟨[], [], [T], []⟩ (str "Résultat") rfl hs hne hw hb
  · have hTv : T =
        finalVal (List.foldl stepLine initState lines).acc (str "Conclusion") := hT
    have hprops := finalVal_props (List.foldl stepLine initState lines).acc
      (str "Conclusion") (by rw [← hTv]; exact hne)
    rw [← hTv] at hprops
    obtain ⟨hs, hw, hb⟩ := hprops
    obtain ⟨hstrip, hfind, hres⟩ := header_line_facts_con hs hne
    have hacc : (List.foldl stepLine initState
        [str "Conclusion" ++ ':' :: ' ' :: T]).acc = ⟨[], [], [], [T]⟩ := by
      rw [List.foldl_cons, stepLine_on_header hstrip hfind hres hne, List.foldl_nil]
      rfl
    rw [segment_entries, hacc]
    show finalVal (⟨[], [], [], [T]⟩ : Acc) (str "Conclusion") = T
    exact finalVal_single ⟨[], [], [], [T]⟩ (str "Conclusion") rfl hs hne hw hb

/-- Witness for C6 at a concrete produced section text. -/
theorem c6_witness :
    cGet (segment [str "Résultat" ++ ':' :: ' ' :: str "pas de lésion visible"])
      (str "Résultat") = str "pas de lésion visible" :=
  c6_idempotent [str "Résultat: pas de lésion visible"] (str "Résultat")
    (by decide) (str "pas de lésion visible") (by decide) (by decide)

/-! ## Helper lemmas: occurrence of patterns and monotonicity of the denylist -/

theorem anyTail_iff (f : Str → Bool) (l : Str) :
    anyTail f l = true ↔ ∃ a t, l = a ++ t ∧ f t = true := by
  induction l with
  | nil =>
    simp only [anyTail]
    constructor
    · intro h; exact ⟨[], [], rfl, h⟩
    · rintro ⟨a, t, hat, hf⟩
      obtain ⟨rfl, rfl⟩ := List.append_eq_nil.mp hat.symm
      exact hf
  | cons c cs ih =>
    simp only [anyTail, Bool.or_eq_true, ih]
    constructor
    · rintro (h | ⟨a, t, rfl, hf⟩)
      · exact ⟨[], c :: cs, rfl, h⟩
      · exact ⟨c :: a, t, rfl, hf⟩
    · rintro ⟨a, t, hat, hf⟩
      cases a with
      | nil =>
        left
        rw [List.nil_append] at hat
        rw [hat]
        exact hf
      | cons d as =>
        right
        rw [List.cons_append] at hat
        injection hat with h1 h2
        exact ⟨as, t, h2, hf⟩

theorem dropLit_isSome_iff (p : Str) : ∀ l : Str,
    (dropLit p l).isSome = true ↔ ∃ r, l = p ++ r := by
  induction p with
  | nil =>
    intro l
    simp only [dropLit, Option.isSome_some, List.nil_append]
    constructor
    · intro _; exact ⟨l, rfl⟩
    · intro _; trivial
  | cons c cs ih =>
    intro l
    cases l with
    | nil =>
      simp only [dropLit, Option.isSome_none]
      constructor
      · intro h; exact absurd h (by simp)
      · rintro ⟨r, h⟩; exact absurd h (by simp)
    | cons d ds =>
      simp only [dropLit]
      by_cases hdc : d = c
      · rw [if_pos hdc, ih ds]
        constructor
        · rintro ⟨r, rfl⟩
          exact ⟨r, by rw [hdc, List.cons_append]⟩
        · rintro ⟨r, h⟩
          rw [List.cons_append] at h
          injection h with h1 h2
          exact ⟨r, h2⟩
      · rw [if_neg hdc]
        simp only [Option.isSome_none]
        constructor
        · intro h; exact absurd h (by simp)
        · rintro ⟨r, h⟩
          rw [List.cons_append] at h
          injection h with h1 h2
          exact absurd h1 hdc

theorem containsLit_iff (p M : Str) :
    containsLit p M = true ↔ ∃ a b, M = a ++ (p ++ b) := by
  unfold containsLit
  rw [anyTail_iff]
  constructor
  · rintro ⟨a, t, rfl, hf⟩
    obtain ⟨b, rfl⟩ := (dropLit_isSome_iff p t).mp hf
    exact ⟨a, b, rfl⟩
  · rintro ⟨a, b, rfl⟩
    exact ⟨a, p ++ b, rfl, (dropLit_isSome_iff p _).mpr ⟨b, rfl⟩⟩

theorem containsLit_trans {p L M : Str} (h1 : containsLit p L = true)
    (h2 : containsLit L M = true) : containsLit p M = true := by
  rw [containsLit_iff] at h1 h2 ⊢
  obtain ⟨a, b, rfl⟩ := h1
  obtain ⟨x, y, rfl⟩ := h2
  exact ⟨x ++ a, b ++ y, by simp [List.append_assoc]⟩

theorem dateAt_append {t : Str} (h : dateAt t = true) (y : Str) :
    dateAt (t ++ y) = true := by
  simp only [dateAt, Bool.and_eq_true, decide_eq_true_eq] at h ⊢
  obtain ⟨⟨⟨⟨⟨⟨⟨⟨⟨⟨hlen, h0⟩, h1⟩, h2⟩, h3⟩, h4⟩, h5⟩, h6⟩, h7⟩, h8⟩, h9⟩ := h
  have hg : ∀ i, i < 10 → (t ++ y).getD i ' ' = t.getD i ' ' := by
    intro i hi
    exact List.getD_append _ _ _ _ (by omega)
  refine ⟨⟨⟨⟨⟨⟨⟨⟨⟨⟨?_, ?_⟩, ?_⟩, ?_⟩, ?_⟩, ?_⟩, ?_⟩, ?_⟩, ?_⟩, ?_⟩, ?_⟩
  · rw [List.length_append]; omega
  · rw [hg 0 (by omega)]; exact h0
  · rw [hg 1 (by omega)]; exact h1
  · rw [hg 2 (by omega)]; exact h2
  · rw [hg 3 (by omega)]; exact h3
  · rw [hg 4 (by omega)]; exact h4
  · rw [hg 5 (by omega)]; exact h5
  · rw [hg 6 (by omega)]; exact h6
  · rw [hg 7 (by omega)]; exact h7
  · rw [hg 8 (by omega)]; exact h8
  · rw [hg 9 (by omega)]; exact h9

theorem containsDate_trans {L M : Str} (h1 : containsDate L = true)
    (h2 : containsLit L M = true) : containsDate M = true := by
  unfold containsDate at h1 ⊢
  rw [anyTail_iff] at h1 ⊢
  obtain ⟨a, t, rfl, hf⟩ := h1
  rw [containsLit_iff] at h2
  obtain ⟨x, y, rfl⟩ := h2
  exact ⟨x ++ a, t ++ y, by simp [List.append_assoc], dateAt_append hf y⟩

theorem dropLit_append {w : Str} : ∀ {t rest : Str}, dropLit w t = some rest →
    ∀ y : Str, dropLit w (t ++ y) = some (rest ++ y) := by
  induction w with
  | nil =>
    intro t rest h y
    simp only [dropLit] at h ⊢
    rw [Option.some_inj.mp h]
  | cons c cs ih =>
    intro t rest h y
    cases t with
    | nil => exact absurd h (by simp [dropLit])
    | cons d ds =>
      simp only [dropLit] at h
      rw [List.cons_append]
      simp only [dropLit]
      by_cases hdc : d = c
      · rw [if_pos hdc] at h ⊢
        exact ih h y
      · rw [if_neg hdc] at h
        exact absurd h (by simp)

theorem dropWhile_append_cons {p : Char → Bool} : ∀ {l : Str} {d : Char} {ds : Str},
    l.dropWhile p = d :: ds → ∀ y : Str, (l ++ y).dropWhile p = d :: (ds ++ y) := by
  intro l
  induction l with
  | nil => intro d ds h y; exact absurd h (by simp)
  | cons c cs ih =>
    intro d ds h y
    rw [List.cons_append]
    by_cases hc : p c = true
    · rw [List.dropWhile_cons_of_pos hc] at h
      rw [List.dropWhile_cons_of_pos hc]
      exact ih h y
    · rw [List.dropWhile_cons_of_neg hc] at h
      rw [List.dropWhile_cons_of_neg hc]
      injection h with h1 h2
      rw [h1, h2]

theorem seqAt_append : ∀ (ws : List Str), (∀ w ∈ ws, w ≠ []) →
    ∀ (t y : Str), seqAt ws t = true → seqAt ws (t ++ y) = true := by
  intro ws
  induction ws with
  | nil => intro _ t y _; rfl
  | cons w ws ih =>
    intro hws t y h
    cases hdl : dropLit w t with
    | none =>
      simp only [seqAt, hdl] at h
      exact absurd h (by simp)
    | some rest =>
      simp only [seqAt, hdl] at h
      simp only [seqAt, dropLit_append hdl y]
      cases ws with
      | nil => rfl
      | cons w2 ws2 =>
        have hne : rest.dropWhile isSpc ≠ [] := by
          intro hnil
          rw [hnil] at h
          have hw2 : w2 ≠ [] := hws w2 (by simp)
          cases w2 with
          | nil => exact hw2 rfl
          | cons a as => simp [seqAt, dropLit] at h
        obtain ⟨d, ds, hd⟩ : ∃ d ds, rest.dropWhile isSpc = d :: ds := by
          cases hx : rest.dropWhile isSpc with
          | nil => exact absurd hx hne
          | cons d ds => exact ⟨d, ds, rfl⟩
        rw [dropWhile_append_cons hd y]
        rw [hd] at h
        have := ih (fun w3 hw3 => hws w3 (List.mem_cons_of_mem _ hw3)) (d :: ds) y h
        rw [List.cons_append] at this
        exact this

theorem containsSeq_trans {ws : List Str} (hws : ∀ w ∈ ws, w ≠ []) {L M : Str}
    (h1 : containsSeq ws L = true) (h2 : containsLit L M = true) :
    containsSeq ws M = true := by
  unfold containsSeq at h1 ⊢
  rw [anyTail_iff] at h1 ⊢
  obtain ⟨a, t, rfl, hf⟩ := h1
  rw [containsLit_iff] at h2
  obtain ⟨x, y, rfl⟩ := h2
  exact ⟨x ++ a, t ++ y, by simp [List.append_assoc], seqAt_append ws hws t y hf⟩

theorem bp_mono {L M : Str} (hLM : containsLit L M = true)
    (hL : boilerplate L = true) : boilerplate M = true := by
  simp only [boilerplate, Bool.or_eq_true] at hL ⊢
  rcases hL with ((((((((h | h) | h) | h) | h) | h) | h) | h) | h)
  · exact Or.inl (Or.inl (Or.inl (Or.inl (Or.inl (Or.inl (Or.inl (Or.inl
      (containsLit_trans h hLM))))))))
  · exact Or.inl (Or.inl (Or.inl (Or.inl (Or.inl (Or.inl (Or.inl (Or.inr
      (containsLit_trans h hLM))))))))
  · exact Or.inl (Or.inl (Or.inl (Or.inl (Or.inl (Or.inl (Or.inr
      (containsLit_trans h hLM)))))))
  · exact Or.inl (Or.inl (Or.inl (Or.inl (Or.inl (Or.inr
      (containsLit_trans h hLM))))))
  · exact Or.inl (Or.inl (Or.inl (Or.inl (Or.inr (containsLit_trans h hLM)))))
  · exact Or.inl (Or.inl (Or.inl (Or.inr (containsLit_trans h hLM))))
  · exact Or.inl (Or.inl (Or.inr (containsDate_trans h hLM)))
  · exact Or.inl (Or.inr (containsSeq_trans (by decide) h hLM))
  · exact Or.inr (containsSeq_trans (by decide) h hLM)

theorem bp_nil : boilerplate [] = false := by decide

theorem bp_ne_nil {L : Str} (h : boilerplate L = true) : L ≠ [] := by
  intro he
  rw [he, bp_nil] at h
  exact absurd h (by simp)

theorem containsLit_nil {L : Str} (h : L ≠ []) : containsLit L [] = false := by
  cases L with
  | nil => exact absurd rfl h
  | cons c cs => rfl

theorem cGet_segment_cases (lines : List Str) (sec : Str) :
    cGet (segment lines) sec = [] ∨
    ∃ s2, cGet (segment lines) sec =
      finalVal (List.foldl stepLine initState lines).acc s2 := by
  by_cases e1 : str "Indication" = sec
  · subst e1; exact Or.inr ⟨str "Indication", rfl⟩
  by_cases e2 : str "Technique" = sec
  · subst e2; exact Or.inr ⟨str "Technique", rfl⟩
  by_cases e3 : str "Résultat" = sec
  · subst e3; exact Or.inr ⟨str "Résultat", rfl⟩
  by_cases e4 : str "Conclusion" = sec
  · subst e4; exact Or.inr ⟨str "Conclusion", rfl⟩
  left
  rw [segment_entries]
  have hnone : List.find? (fun p => p.1 == sec)
      [(str "Indication",
          finalVal (List.foldl stepLine initState lines).acc (str "Indication")),
       (str "Technique",
          finalVal (List.foldl stepLine initState lines).acc (str "Technique")),
       (str "Résultat",
          finalVal (List.foldl stepLine initState lines).acc (str "Résultat")),
       (str "Conclusion",
          finalVal (List.foldl stepLine initState lines).acc (str "Conclusion"))] =
      none := by
    rw [List.find?_eq_none]
    intro x hx
    simp only [List.mem_cons, List.not_mem_nil, or_false] at hx
    rcases hx with rfl | rfl | rfl | rfl <;>
      simp only [beq_iff_eq] <;> assumption
  simp only [cGet]
  rw [hnone]

theorem output_clean (lines : List Str) (sec : Str)
    (h : cGet (segment lines) sec ≠ []) :
    boilerplate (cGet (segment lines) sec) = false := by
  rcases cGet_segment_cases lines sec with hnil | ⟨s2, he⟩
  · exact absurd hnil h
  · rw [he] at h ⊢
    exact (finalVal_props _ _ h).2.2

theorem foldl_skip : ∀ (rest : List Str) (st : SegState), st.current = none →
    (∀ L ∈ rest, findHeader (strip L) = none) →
    List.foldl stepLine st rest = st := by
  intro rest
  induction rest with
  | nil => intro st _ _; rfl
  | cons L rest ih =>
    intro st hcur hall
    rw [List.foldl_cons, stepLine_skip hcur (hall L (by simp))]
    exact ih st hcur (fun L2 hL2 => hall L2 (List.mem_cons_of_mem _ hL2))

/-! ## Claim C7 -/

/-- Claim C7: (i) a line matching the boilerplate denylist never appears (as a
substring) in any section's output text; (ii) encountering a non-header
boilerplate line while a section is open discards the line and resets
`current_section` to null; (iii) from a null `current_section`, subsequent
non-header lines are not appended anywhere — the state is unchanged until a new
header line arrives. -/
theorem c7_boilerplate_terminates :
    (∀ (lines : List Str) (sec L : Str), boilerplate L = true →
        containsLit L (cGet (segment lines) sec) = false) ∧
    (∀ (st : SegState) (cur raw : Str), st.current = some cur →
        strip raw ≠ [] → findHeader (strip raw) = none →
        boilerplate (strip raw) = true →
        stepLine st raw = { st with current := none }) ∧
    (∀ (st : SegState) (rest : List Str), st.current = none →
        (∀ L ∈ rest, findHeader (strip L) = none) →
        List.foldl stepLine st rest = st) := by
  refine ⟨?_, fun st cur raw h h1 h2 h3 => stepLine_boiler h h1 h2 h3,
    fun st rest hcur hall => foldl_skip rest st hcur hall⟩
  intro lines sec L hL
  by_cases hout : cGet (segment lines) sec = []
  · rw [hout]
    exact containsLit_nil (bp_ne_nil hL)
  · cases hc : containsLit L (cGet (segment lines) sec) with
    | false => rfl
    | true =>
      have := bp_mono hc hL
      rw [output_clean lines sec hout] at this
      exact absurd this (by simp)

/-- Witness for C7 at concrete inputs. -/
theorem c7_witness :
    containsLit (str "Accueil")
      (cGet (segment [str "Indication: un deux trois", str "Accueil"])
        (str "Indication")) = false ∧
    stepLine ⟨some (str "Indication"), emptyAcc⟩ (str "Accueil") =
      ⟨none, emptyAcc⟩ ∧
    List.foldl stepLine ⟨none, emptyAcc⟩ [str "une ligne banale"] =
      ⟨none, emptyAcc⟩ :=
  ⟨c7_boilerplate_terminates.1 _ _ _ (by decide),
   c7_boilerplate_terminates.2.1 _ _ _ rfl (by decide) (by decide) (by decide),
   c7_boilerplate_terminates.2.2 _ _ rfl (by decide)⟩

/-! ## Helper lemmas: the section-count dictionary of the Template Builder -/

theorem lookupCount_bumpKey (cs : List (Str × Nat)) (k s : Str) :
    lookupCount (bumpKey cs k) s =
      lookupCount cs s + (if k == s then 1 else 0) := by
  induction cs with
  | nil => simp [bumpKey, lookupCount]
  | cons p ps ih =>
    simp only [bumpKey]
    by_cases h : (p.1 == k) = true
    · rw [if_pos h]
      have hpk : p.1 = k := eq_of_beq h
      simp only [lookupCount, hpk]
      by_cases hks : (k == s) = true
      · simp [hks]
      · simp [hks]
    · rw [if_neg h]
      simp only [lookupCount, ih]
      by_cases hps : (p.1 == s) = true
      · have hks : (k == s) = false := by
          rw [beq_eq_false_iff_ne]
          intro hk
          rw [← hk] at hps
          exact h (by rw [beq_iff_eq]; exact (eq_of_beq hps).symm ▸ rfl)
        simp [hps, hks]
      · simp [hps]

theorem lookupCount_foldl_bump (keys : List Str) :
    ∀ (cs : List (Str × Nat)) (s : Str),
      lookupCount (keys.foldl bumpKey cs) s = lookupCount cs s + keys.count s := by
  induction keys with
  | nil => intro cs s; simp
  | cons k keys ih =>
    intro cs s
    rw [List.foldl_cons, ih, lookupCount_bumpKey, List.count_cons]
    by_cases h : (k == s) = true
    · simp [h]; omega
    · simp [h]

theorem lookupCount_secfold (reps : List RawReport) :
    ∀ (cs : List (Str × Nat)) (s : Str),
      lookupCount (reps.foldl (fun cs r => (contentKeys r).foldl bumpKey cs) cs) s =
        lookupCount cs s + (reps.map (fun r => (contentKeys r).count s)).sum := by
  induction reps with
  | nil => intro cs s; simp
  | cons r reps ih =>
    intro cs s
    rw [List.foldl_cons, ih, lookupCount_foldl_bump, List.map_cons, List.sum_cons]
    omega

theorem count_indicator : ∀ (l : List Str), l.Nodup → ∀ s : Str,
    l.count s = if s ∈ l then 1 else 0 := by
  intro l
  induction l with
  | nil => intro _ s; simp
  | cons a l ih =>
    intro hnd s
    rw [List.count_cons, ih hnd.of_cons s]
    by_cases has : a = s
    · subst has
      rw [if_pos (List.mem_cons_self _ _), if_neg hnd.not_mem]
      simp
    · have hbeq2 : ¬ ((a == s) = true) := by
        rw [beq_iff_eq]
        exact has
      rw [if_neg hbeq2, Nat.add_zero]
      by_cases hs : s ∈ l
      · rw [if_pos hs, if_pos (List.mem_cons_of_mem _ hs)]
      · rw [if_neg hs, if_neg (fun hmem => by
          rcases List.mem_cons.mp hmem with rfl | hmem2
          · exact has rfl
          · exact hs hmem2)]

theorem sum_indicator (s : Str) : ∀ (reps : List RawReport),
    (∀ r ∈ reps, (contentKeys r).Nodup) →
    (reps.map (fun r => (contentKeys r).count s)).sum = keyCount s reps := by
  intro reps
  induction reps with
  | nil => intro _; simp [keyCount]
  | cons r reps ih =>
    intro hnd
    rw [List.map_cons, List.sum_cons]
    unfold keyCount
    rw [List.filter_cons]
    rw [count_indicator (contentKeys r) (hnd r (by simp)) s]
    by_cases hm : s ∈ contentKeys r
    · rw [if_pos hm, if_pos (by simpa using hm)]
      rw [List.length_cons]
      have := ih (fun r2 hr2 => hnd r2 (List.mem_cons_of_mem _ hr2))
      unfold keyCount at this
      omega
    · rw [if_neg hm, if_neg (by simpa using hm)]
      have := ih (fun r2 hr2 => hnd r2 (List.mem_cons_of_mem _ hr2))
      unfold keyCount at this
      omega

theorem bumpKey_pos : ∀ (cs : List (Str × Nat)) (k : Str),
    (∀ p ∈ cs, 0 < p.2) → ∀ p ∈ bumpKey cs k, 0 < p.2 := by
  intro cs
  induction cs with
  | nil =>
    intro k _ p hp
    simp only [bumpKey, List.mem_singleton] at hp
    rw [hp]
    exact Nat.one_pos
  | cons q qs ih =>
    intro k h p hp
    simp only [bumpKey] at hp
    by_cases hq : (q.1 == k) = true
    · rw [if_pos hq] at hp
      rcases List.mem_cons.mp hp with rfl | hp2
      · simp
      · exact h p (List.mem_cons_of_mem _ hp2)
    · rw [if_neg hq] at hp
      rcases List.mem_cons.mp hp with rfl | hp2
      · exact h p (by simp)
      · exact ih k (fun p2 hp2b => h p2 (List.mem_cons_of_mem _ hp2b)) p hp2

theorem foldl_bump_pos : ∀ (keys : List Str) (cs : List (Str × Nat)),
    (∀ p ∈ cs, 0 < p.2) → ∀ p ∈ keys.foldl bumpKey cs, 0 < p.2 := by
  intro keys
  induction keys with
  | nil => intro cs h p hp; exact h p hp
  | cons k keys ih =>
    intro cs h p hp
    rw [List.foldl_cons] at hp
    exact ih (bumpKey cs k) (bumpKey_pos cs k h) p hp

theorem sectionCounts_pos (reps : List RawReport) :
    ∀ p ∈ sectionCounts reps, 0 < p.2 := by
  unfold sectionCounts
  have haux : ∀ (rs : List RawReport) (cs : List (Str × Nat)),
      (∀ p ∈ cs, 0 < p.2) →
      ∀ p ∈ rs.foldl (fun cs r => (contentKeys r).foldl bumpKey cs) cs, 0 < p.2 := by
    intro rs
    induction rs with
    | nil => intro cs h p hp; exact h p hp
    | cons r rs ih =>
      intro cs h p hp
      rw [List.foldl_cons] at hp
      exact ih _ (foldl_bump_pos (contentKeys r) cs h) p hp
  exact haux reps [] (by simp)

theorem bumpKey_keys (cs : List (Str × Nat)) (k : Str) :
    (bumpKey cs k).map Prod.fst =
      if k ∈ cs.map Prod.fst then cs.map Prod.fst
      else cs.map Prod.fst ++ [k] := by
  induction cs with
  | nil => simp [bumpKey]
  | cons q qs ih =>
    simp only [bumpKey, List.map_cons]
    by_cases hq : (q.1 == k) = true
    · have hqk : q.1 = k := eq_of_beq hq
      rw [if_pos hq, if_pos (by rw [← hqk]; exact List.mem_cons_self _ _)]
      simp
    · have hqk : q.1 ≠ k := by
        intro hx
        exact hq (by rw [beq_iff_eq]; exact hx)
      rw [if_neg hq]
      by_cases hmem : k ∈ qs.map Prod.fst
      · rw [if_pos (List.mem_cons_of_mem _ hmem)]
        rw [List.map_cons, ih, if_pos hmem]
      · rw [if_neg (by simp [hqk.symm, hmem] )]
        rw [List.map_cons, ih, if_neg hmem, List.cons_append]

theorem bumpKey_keys_nodup {cs : List (Str × Nat)} {k : Str}
    (h : (cs.map Prod.fst).Nodup) : ((bumpKey cs k).map Prod.fst).Nodup := by
  rw [bumpKey_keys]
  by_cases hmem : k ∈ cs.map Prod.fst
  · rw [if_pos hmem]; exact h
  · rw [if_neg hmem]
    rw [List.nodup_append]
    refine ⟨h, List.nodup_singleton k, fun a ha hak => hmem ?_⟩
    rw [List.mem_singleton] at hak
    rw [← hak]
    exact ha

theorem sectionCounts_keys_nodup (reps : List RawReport) :
    ((sectionCounts reps).map Prod.fst).Nodup := by
  unfold sectionCounts
  have hkeys : ∀ (keys : List Str) (cs : List (Str × Nat)),
      (cs.map Prod.fst).Nodup → ((keys.foldl bumpKey cs).map Prod.fst).Nodup := by
    intro keys
    induction keys with
    | nil => intro cs h; exact h
    | cons k keys ih =>
      intro cs h
      rw [List.foldl_cons]
      exact ih _ (bumpKey_keys_nodup h)
  have haux : ∀ (rs : List RawReport) (cs : List (Str × Nat)),
      (cs.map Prod.fst).Nodup →
      ((rs.foldl (fun cs r => (contentKeys r).foldl bumpKey cs) cs).map Prod.fst).Nodup := by
    intro rs
    induction rs with
    | nil => intro cs h; exact h
    | cons r rs ih =>
      intro cs h
      rw [List.foldl_cons]
      exact ih _ (hkeys (contentKeys r) cs h)
  exact haux reps [] (by simp)

theorem lookupCount_pos_mem : ∀ (cs : List (Str × Nat)) (s : Str),
    0 < lookupCount cs s → ∃ p, p ∈ cs ∧ p.1 = s ∧ p.2 = lookupCount cs s := by
  intro cs
  induction cs with
  | nil => intro s h; simp [lookupCount] at h
  | cons q qs ih =>
    intro s h
    simp only [lookupCount] at h ⊢
    by_cases hq : (q.1 == s) = true
    · rw [if_pos hq] at h ⊢
      exact ⟨q, by simp, eq_of_beq hq, rfl⟩
    · rw [if_neg hq] at h ⊢
      obtain ⟨p, hpmem, hps, hpv⟩ := ih s h
      exact ⟨p, List.mem_cons_of_mem _ hpmem, hps, hpv⟩

theorem mem_lookupCount_eq : ∀ (cs : List (Str × Nat)),
    ((cs.map Prod.fst).Nodup) → ∀ p ∈ cs, ∀ s, p.1 = s → p.2 = lookupCount cs s := by
  intro cs
  induction cs with
  | nil => intro _ p hp; exact absurd hp (by simp)
  | cons q qs ih =>
    intro hnd p hp s hps
    simp only [lookupCount]
    rcases List.mem_cons.mp hp with rfl | hp2
    · rw [if_pos (by rw [beq_iff_eq]; exact hps)]
    · have hq : q.1 ≠ s := by
        intro hx
        rw [List.map_cons] at hnd
        have := hnd.not_mem
        exact this (by
          rw [hx, ← hps]
          exact List.mem_map_of_mem Prod.fst hp2)
      rw [if_neg (fun hx => hq (eq_of_beq hx))]
      exact ih (by rw [List.map_cons] at hnd; exact hnd.of_cons) p hp2 s hps

/-! ## Claim C1 (amended) -/

/-- Claim C1 as amended: a section is a key of the produced template's sections
mapping if and only if the number of reports of the group having the section as
a content key (regardless of emptiness) is positive and at least 30% of the
group size, or the section is one of the four forced critical sections.  The
hypothesis mirrors the dictionary invariant of Python content mappings: keys
within one report are unique. -/
theorem c1_common_section_iff (ty : Str) (reps : List RawReport) (s : Str)
    (hnd : ∀ r ∈ reps, (contentKeys r).Nodup) :
    s ∈ (buildTemplate ty reps).sections.map Prod.fst ↔
      (0 < keyCount s reps ∧ 3 * reps.length ≤ 10 * keyCount s reps) ∨
      s ∈ critical_sections := by
  rw [template_keys]
  unfold commonSections
  rw [mem_forceCritical]
  have hlk : lookupCount (sectionCounts reps) s = keyCount s reps := by
    unfold sectionCounts
    rw [lookupCount_secfold]
    rw [sum_indicator s reps hnd]
    simp [lookupCount]
  constructor
  · rintro (hmem | hcrit)
    · left
      simp only [List.mem_map, List.mem_filter] at hmem
      obtain ⟨p, ⟨hpmem, hpthr⟩, hps⟩ := hmem
      have hp2 : p.2 = lookupCount (sectionCounts reps) s :=
        mem_lookupCount_eq (sectionCounts reps) (sectionCounts_keys_nodup reps)
          p hpmem s hps
      have hppos : 0 < p.2 := sectionCounts_pos reps p hpmem
      simp only [meetsThreshold, decide_eq_true_eq] at hpthr
      rw [hp2, hlk] at hppos hpthr
      exact ⟨hppos, hpthr⟩
    · exact Or.inr hcrit
  · rintro (⟨hpos, hthr⟩ | hcrit)
    · left
      rw [← hlk] at hpos hthr
      obtain ⟨p, hpmem, hps, hpval⟩ := lookupCount_pos_mem (sectionCounts reps) s hpos
      simp only [List.mem_map, List.mem_filter]
      refine ⟨p, ⟨hpmem, ?_⟩, hps⟩
      simp only [meetsThreshold, decide_eq_true_eq]
      rw [hpval]
      exact hthr
    · exact Or.inr hcrit

/-- Witness for C1 (amended): in a group of ten MSK reports of which seven have
"Résultat" as a content key, "Résultat" is a key of the produced template. -/
theorem c1_witness :
    str "Résultat" ∈ (buildTemplate (str "MSK") c1Group).sections.map Prod.fst :=
  (c1_common_section_iff (str "MSK") c1Group (str "Résultat") (by decide)).mpr
    (by decide)

/-! ## Helper lemmas: grouping with defaulted fields -/

theorem groupTypes_unknown_aux :
    ∀ (rest : List RawReport) (pre : List RawReport),
      (∀ r ∈ rest, getType r = str "Unknown") →
      rest.foldl (fun gs r => addToGroup gs (getType r) r)
          [(str "Unknown", pre)] =
        [(str "Unknown", pre ++ rest)] := by
  intro rest
  induction rest with
  | nil => intro pre _; simp
  | cons r2 rest2 ih =>
    intro pre hall
    rw [List.foldl_cons]
    have hty : getType r2 = str "Unknown" := hall r2 (by simp)
    have hstep : addToGroup [(str "Unknown", pre)] (getType r2) r2 =
        [(str "Unknown", pre ++ [r2])] := by
      rw [hty]
      rfl
    rw [hstep, ih (pre ++ [r2]) (fun r3 hr3 => hall r3 (List.mem_cons_of_mem _ hr3))]
    simp

theorem groupTypes_unknown (reps : List RawReport) (h1 : reps ≠ [])
    (h2 : ∀ r ∈ reps, getType r = str "Unknown") :
    groupTypes reps = [(str "Unknown", reps)] := by
  cases reps with
  | nil => exact absurd rfl h1
  | cons r rest =>
    unfold groupTypes
    rw [List.foldl_cons]
    have hty : getType r = str "Unknown" := h2 r (by simp)
    have hstep : addToGroup [] (getType r) r = [(str "Unknown", [r])] := by
      rw [hty]
      rfl
    rw [hstep,
      groupTypes_unknown_aux rest [r] (fun r3 hr3 => h2 r3 (List.mem_cons_of_mem _ hr3))]
    rfl

theorem sectionCounts_nil_of (reps : List RawReport)
    (h : ∀ r ∈ reps, r.content = none) : sectionCounts reps = [] := by
  unfold sectionCounts
  have haux : ∀ (rs : List RawReport), (∀ r ∈ rs, r.content = none) →
      ∀ cs : List (Str × Nat),
        rs.foldl (fun cs r => (contentKeys r).foldl bumpKey cs) cs = cs := by
    intro rs
    induction rs with
    | nil => intro _ cs; rfl
    | cons r rs ih =>
      intro hall cs
      rw [List.foldl_cons]
      have hk : contentKeys r = [] := by
        unfold contentKeys getContent
        rw [hall r (by simp)]
        rfl
      rw [hk, List.foldl_nil]
      exact ih (fun r2 hr2 => hall r2 (List.mem_cons_of_mem _ hr2)) cs
  exact haux reps h []

/-! ## Claim C4 (amended) -/

/-- Claim C4 as amended: fed only report records missing both expected fields,
the Template Builder does not fail — it defaults the type to "Unknown" and the
content to an empty mapping, and produces exactly one complete template (the
"Unknown" group's) whose sections are the four forced critical sections. -/
theorem c4_missing_fields_default (reps : List RawReport) (h1 : reps ≠ [])
    (h2 : ∀ r ∈ reps, r.type = none ∧ r.content = none) :
    extract_templates (LoadResult.ok reps) =
      [(str "templates/unknown_template.json",
        { type := str "Unknown", title := [],
          sections := [(str "Indication", []), (str "Technique", []),
            (str "Résultat", []), (str "Conclusion", [])] })] := by
  have hg : groupTypes reps = [(str "Unknown", reps)] :=
    groupTypes_unknown reps h1 (fun r hr => by
      unfold getType
      rw [(h2 r hr).1])
  have hsc : sectionCounts reps = [] :=
    sectionCounts_nil_of reps (fun r hr => (h2 r hr).2)
  have hcs : commonSections reps = critical_sections := by
    unfold commonSections
    rw [hsc]
    rfl
  show (groupTypes reps).map
      (fun g => (templateFilename g.1, buildTemplate g.1 g.2)) = _
  rw [hg, List.map_cons, List.map_nil]
  have hbt : buildTemplate (str "Unknown") reps =
      { type := str "Unknown", title := [],
        sections := [(str "Indication", []), (str "Technique", []),
          (str "Résultat", []), (str "Conclusion", [])] } := by
    unfold buildTemplate
    rw [hcs]
    rfl
  rw [hbt]
  rfl

/-- Witness for C4 (amended) at two concrete empty records. -/
theorem c4_witness :
    extract_templates (LoadResult.ok [⟨none, none⟩, ⟨none, none⟩]) =
      [(str "templates/unknown_template.json",
        { type := str "Unknown", title := [],
          sections := [(str "Indication", []), (str "Technique", []),
            (str "Résultat", []), (str "Conclusion", [])] })] :=
  c4_missing_fields_default [⟨none, none⟩, ⟨none, none⟩] (by decide) (by decide)

end RadReports
